import Mathlib

/-!
Shallow embedding of the SpotifyStreamsML pipeline
(src/spotifystreamsmlmodels.py) over exact rationals.

Cells of the raw table are `Option ℚ` (with `none` for a missing value,
pandas NaN); numeric matrices are lists of rows of `ℚ`.  Fallible pandas
operations (which raise in Python) are embedded as `Except String`.
-/

namespace SpotifyStreams

/-! ### Basic statistics over ℚ -/

/-- Arithmetic mean of a list of rationals (0 on the empty list, since
`0 / 0 = 0` in ℚ). -/
def meanQ (l : List ℚ) : ℚ := l.sum / l.length

/-- Population variance (the biased variance numpy/sklearn use by default:
mean of squared deviations from the mean). -/
def popVarQ (l : List ℚ) : ℚ := meanQ (l.map (fun x => (x - meanQ l) ^ 2))

/-! ### RecordCleaner: `data.drop_duplicates()` then `data.fillna(0)`
(source lines 72 and 75). -/

/-- A cell of the raw table: `none` is a missing value (pandas NaN). -/
abbrev Cell := Option ℚ

/-- A raw record: the list of its cells. -/
abbrev RawRow := List Cell

/-- A raw dataset: an ordered list of records. -/
abbrev RawDataset := List RawRow

/-- Keep the first occurrence of each element, dropping later duplicates —
the semantics of pandas `drop_duplicates()` (which also treats NaN cells as
equal to each other, matching `Option` equality here). -/
def dropDupAux {α : Type} [DecidableEq α] (seen : List α) : List α → List α
  | [] => []
  | a :: t => if a ∈ seen then dropDupAux seen t else a :: dropDupAux (a :: seen) t

/-- `data.drop_duplicates()` (source line 72). -/
def drop_duplicates (ds : RawDataset) : RawDataset := dropDupAux [] ds

/-- `fillna(0)` on one cell: a missing value becomes 0, a present value is
kept. -/
def fillCell (c : Cell) : Cell := some (c.getD 0)

/-- `data.fillna(0)` (source line 75). -/
def fillna (ds : RawDataset) : RawDataset := ds.map (fun r => r.map fillCell)

/-- The RecordCleaner stage: duplicates dropped, then missing values filled
with 0, in source order (lines 72-75). -/
def recordCleaner (ds : RawDataset) : RawDataset := fillna (drop_duplicates ds)

/-! Helper lemmas about `dropDupAux` and `fillna`. -/

theorem dropDupAux_sublist {α : Type} [DecidableEq α] (seen : List α) :
    ∀ l : List α, (dropDupAux seen l).Sublist l := by
  intro l
  induction l generalizing seen with
  | nil => simp [dropDupAux]
  | cons a t ih =>
    by_cases h : a ∈ seen
    · simp only [dropDupAux, if_pos h]
      exact (ih seen).cons a
    · simp only [dropDupAux, if_neg h]
      exact (ih (a :: seen)).cons₂ a

theorem mem_of_mem_dropDupAux {α : Type} [DecidableEq α] {seen : List α}
    {l : List α} {x : α} (h : x ∈ dropDupAux seen l) : x ∈ l :=
  (dropDupAux_sublist seen l).mem h

theorem dropDupAux_nodup_and_disjoint {α : Type} [DecidableEq α] :
    ∀ (l seen : List α),
      (dropDupAux seen l).Nodup ∧ ∀ x ∈ dropDupAux seen l, x ∉ seen := by
  intro l
  induction l with
  | nil => intro seen; simp [dropDupAux]
  | cons a t ih =>
    intro seen
    by_cases h : a ∈ seen
    · simpa [dropDupAux, if_pos h] using ih seen
    · have hrec := ih (a :: seen)
      refine ⟨?_, ?_⟩
      · simp only [dropDupAux, if_neg h, List.nodup_cons]
        refine ⟨fun hmem => ?_, hrec.1⟩
        exact hrec.2 a hmem (List.mem_cons_self a seen)
      · intro x hx
        simp only [dropDupAux, if_neg h, List.mem_cons] at hx
        rcases hx with rfl | hx
        · exact h
        · intro hxseen
          exact hrec.2 x hx (List.mem_cons_of_mem a hxseen)

theorem dropDupAux_eq_self {α : Type} [DecidableEq α] :
    ∀ (l seen : List α), l.Nodup → (∀ x ∈ l, x ∉ seen) →
      dropDupAux seen l = l := by
  intro l
  induction l with
  | nil => intro seen _ _; rfl
  | cons a t ih =>
    intro seen hnd hdisj
    have ha : a ∉ seen := hdisj a (List.mem_cons_self a t)
    simp only [dropDupAux, if_neg ha]
    have hnd' : t.Nodup := (List.nodup_cons.mp hnd).2
    have hat : a ∉ t := (List.nodup_cons.mp hnd).1
    have hdisj' : ∀ x ∈ t, x ∉ a :: seen := by
      intro x hx
      simp only [List.mem_cons]
      push_neg
      exact ⟨fun hxa => hat (hxa ▸ hx), hdisj x (List.mem_cons_of_mem a hx)⟩
    rw [ih (a :: seen) hnd' hdisj']

/-- `drop_duplicates` is idempotent. -/
theorem drop_duplicates_idem (ds : RawDataset) :
    drop_duplicates (drop_duplicates ds) = drop_duplicates ds := by
  have h := dropDupAux_nodup_and_disjoint (α := RawRow) ds []
  exact dropDupAux_eq_self (drop_duplicates ds) [] h.1 (fun x _ => List.not_mem_nil x)

/-- A row coming out of `fillna` has no missing cell. -/
theorem fillna_no_missing (ds : RawDataset) :
    ∀ r ∈ fillna ds, ∀ c ∈ r, c ≠ none := by
  intro r hr c hc
  simp only [fillna, List.mem_map] at hr
  obtain ⟨r0, _, rfl⟩ := hr
  simp only [List.mem_map] at hc
  obtain ⟨c0, _, rfl⟩ := hc
  simp [fillCell]

/-- `fillna` is the identity on a dataset with no missing cell. -/
theorem fillRow_eq_self (r : RawRow) (h : ∀ c ∈ r, c ≠ none) :
    r.map fillCell = r := by
  induction r with
  | nil => rfl
  | cons c t ih =>
    have hc : c ≠ none := h c (List.mem_cons_self c t)
    have ht : ∀ x ∈ t, x ≠ none := fun x hx => h x (List.mem_cons_of_mem c hx)
    cases c with
    | none => exact absurd rfl hc
    | some q => simp [fillCell, ih ht]

theorem fillna_eq_self :
    ∀ ds : RawDataset, (∀ r ∈ ds, ∀ c ∈ r, c ≠ none) → fillna ds = ds := by
  intro ds
  induction ds with
  | nil => intro _; rfl
  | cons r t ih =>
    intro h
    have hr := h r (List.mem_cons_self r t)
    have ht : ∀ x ∈ t, ∀ c ∈ x, c ≠ none :=
      fun x hx => h x (List.mem_cons_of_mem r hx)
    simp only [fillna, List.map_cons, fillRow_eq_self r hr]
    have := ih ht
    simpa [fillna] using this

theorem drop_duplicates_rows_subset (ds : RawDataset) :
    ∀ r ∈ drop_duplicates ds, r ∈ ds :=
  fun _ h => mem_of_mem_dropDupAux h

/-- Claim C8 counterexample: the cleaning step (drop duplicates, then fill
missing values with 0) is not idempotent.  On the dataset with rows
`[NaN]` and `[0]`, the first pass keeps both rows (they differ) and fills
the NaN with 0, producing two identical rows; the second pass then removes
one of them, so the output shrinks. -/
theorem c8_cleaner_not_idempotent_cex :
    recordCleaner (recordCleaner [[none], [some 0]]) ≠
      recordCleaner [[(none : Cell)], [some 0]] := by
  decide

/-- Claim C8 (amended): a second pass of the cleaner changes no cell values
(it equals a plain duplicate-drop of the first pass's output, whose result
is a sublist of it), and on a dataset with no missing values the cleaner is
fully idempotent.  Idempotence fails in general only when filling missing
values creates new duplicate rows (see the counterexample). -/
theorem c8_cleaner_second_pass (ds : RawDataset) :
    recordCleaner (recordCleaner ds) = drop_duplicates (recordCleaner ds) ∧
    (recordCleaner (recordCleaner ds)).Sublist (recordCleaner ds) ∧
    ((∀ r ∈ ds, ∀ c ∈ r, c ≠ none) →
      recordCleaner (recordCleaner ds) = recordCleaner ds) := by
  have hclean_no_missing : ∀ r ∈ recordCleaner ds, ∀ c ∈ r, c ≠ none :=
    fillna_no_missing (drop_duplicates ds)
  have hdd_no_missing : ∀ r ∈ drop_duplicates (recordCleaner ds), ∀ c ∈ r, c ≠ none :=
    fun r hr => hclean_no_missing r (drop_duplicates_rows_subset _ r hr)
  have h1 : recordCleaner (recordCleaner ds) = drop_duplicates (recordCleaner ds) := by
    show fillna (drop_duplicates (recordCleaner ds)) = drop_duplicates (recordCleaner ds)
    exact fillna_eq_self _ hdd_no_missing
  refine ⟨h1, ?_, ?_⟩
  · rw [h1]; exact dropDupAux_sublist [] (recordCleaner ds)
  · intro hmiss
    have hfirst : recordCleaner ds = drop_duplicates ds := by
      show fillna (drop_duplicates ds) = drop_duplicates ds
      exact fillna_eq_self _ (fun r hr => hmiss r (drop_duplicates_rows_subset ds r hr))
    rw [h1, hfirst, drop_duplicates_idem]

/-- Witness for C8: on a concrete dataset with no missing values, the
cleaner is idempotent. -/
theorem c8_cleaner_second_pass_witness :
    recordCleaner (recordCleaner [[some 1], [some 1], [some 2]]) =
      recordCleaner [[(some 1 : Cell)], [some 1], [some 2]] :=
  (c8_cleaner_second_pass [[some 1], [some 1], [some 2]]).2.2 (by decide)

/-! ### FeatureDeriver, part 1: date construction (source lines 85-89)

`pd.to_datetime({'year': ..., 'month': ..., 'day': ...})` is called with its
default `errors='raise'` policy: if any row's (year, month, day) triple is
not a valid calendar date, the call raises and the whole run aborts; no row
is dropped or flagged.  We embed the whole-column call as `Except`. -/

/-- Gregorian leap-year test. -/
def isLeapYear (y : ℤ) : Bool :=
  (y % 4 == 0 && y % 100 != 0) || (y % 400 == 0)

/-- Number of days in a month of a given year. -/
def daysInMonth (y m : ℤ) : ℤ :=
  if m = 2 then (if isLeapYear y then 29 else 28)
  else if m = 4 ∨ m = 6 ∨ m = 9 ∨ m = 11 then 30
  else 31

/-- Whether (year, month, day) is a valid calendar date. -/
def validDate (y m d : ℤ) : Bool :=
  decide (1 ≤ m) && decide (m ≤ 12) && decide (1 ≤ d) && decide (d ≤ daysInMonth y m)

/-- `pd.to_datetime` applied to the aligned year/month/day columns with the
default raise-on-error policy: succeeds (returning every row) only when
every row is a valid date, and otherwise raises. -/
def to_datetime_ymd (rows : List (ℤ × ℤ × ℤ)) : Except String (List (ℤ × ℤ × ℤ)) :=
  if rows.all (fun r => validDate r.1 r.2.1 r.2.2) then Except.ok rows
  else Except.error "day is out of range for month"

/-- Claim C1 counterexample: a single record with the invalid date
2020-02-30 makes the date-construction step raise, aborting the run instead
of excluding or flagging the record. -/
theorem c1_invalid_date_aborts_cex :
    to_datetime_ymd [((2020 : ℤ), (2 : ℤ), (30 : ℤ))] =
      Except.error "day is out of range for month" := rfl

/-- Claim C1 (amended): the date-construction step completes normally
exactly when every record's year/month/day triple forms a valid calendar
date; any invalid date raises and aborts the run (records are never
excluded or flagged at this step). -/
theorem c1_to_datetime_ok_iff_all_valid (rows : List (ℤ × ℤ × ℤ)) :
    to_datetime_ymd rows = Except.ok rows ↔
      ∀ r ∈ rows, validDate r.1 r.2.1 r.2.2 = true := by
  unfold to_datetime_ymd
  split
  · next h => simpa [List.all_eq_true] using h
  · next h =>
    simp only [List.all_eq_true] at h
    simp only [iff_false_intro h, iff_false]
    intro hcontra
    exact Except.noConfusion hcontra

/-! ### FeatureDeriver, part 2: delimited count columns (source lines 92-93)

`data[c] = data[c].str.replace(',', '').astype(float).fillna(0).astype(int)`
for `c` in {`in_deezer_playlists`, `in_shazam_charts`}.  On an object-dtype
column, `.str.replace` acts on string entries and yields NaN on non-string
entries (such as the integer 0 written by the earlier `fillna(0)`);
`astype(float)` parses the comma-stripped strings and RAISES ValueError on a
string that is not a numeric literal; `fillna(0)` turns the NaN entries into
0; `astype(int)` truncates toward zero.  On an already-numeric (int64)
column the `.str` accessor itself raises.  Numeric literals are modeled as
optionally signed decimal strings (the forms occurring in this data). -/

/-- A cell of an object-dtype pandas column: a string, or a non-string
(numeric) value such as the 0 written by `fillna(0)`. -/
inductive CountCell where
  | strv (v : String)
  | numv (v : ℚ)
deriving DecidableEq

/-- A pandas column as the count-normalization step sees it: object dtype
(mixed cells) or int64 dtype (the step's own output). -/
inductive CountColumn where
  | obj (cells : List CountCell)
  | i64 (vals : List ℤ)
deriving DecidableEq

/-- `.str.replace(',', '')` on one string: remove every comma. -/
def removeCommas (s : String) : String :=
  String.mk (s.toList.filter (fun c => c ≠ ','))

/-- Parse a list of decimal digit characters as a natural number; `none` if
any character is not a digit.  The empty list parses as 0 (callers rule out
the all-empty case). -/
def parseNatDigits (cs : List Char) : Option ℕ :=
  cs.foldl
    (fun acc c => acc.bind (fun n => if c.isDigit then some (10 * n + (c.toNat - 48)) else none))
    (some 0)

/-- Parse an optionally signed decimal literal (Python `float()` on the
forms present in this column: digits, optionally a single dot and more
digits). -/
def parseFloatQ (s : String) : Option ℚ :=
  let cs := s.toList
  let signAndRest : Bool × List Char :=
    match cs with
    | '-' :: rest => (true, rest)
    | '+' :: rest => (false, rest)
    | _ => (false, cs)
  let intPart := signAndRest.2.takeWhile (fun c => c ≠ '.')
  let fracPart := (signAndRest.2.dropWhile (fun c => c ≠ '.')).drop 1
  if intPart.isEmpty && fracPart.isEmpty then none
  else
    match parseNatDigits intPart, parseNatDigits fracPart with
    | some ip, some fp =>
        let mag : ℚ :=
          if fracPart.isEmpty then (ip : ℚ)
          else (ip : ℚ) + (fp : ℚ) / ((10 : ℚ) ^ fracPart.length)
        some (if signAndRest.1 then -mag else mag)
    | _, _ => none

/-- `astype(int)`: C-style truncation toward zero. -/
def truncQ (q : ℚ) : ℤ := if 0 ≤ q then ⌊q⌋ else -⌊-q⌋

/-- One cell through `.str.replace(',', '').astype(float).fillna(0)`:
a string cell must parse (else ValueError aborts the column conversion);
a non-string cell becomes NaN under `.str` and then 0 under `fillna(0)`. -/
def convertCountCell : CountCell → Except String ℚ
  | .strv v =>
      match parseFloatQ (removeCommas v) with
      | some q => Except.ok q
      | none => Except.error "could not convert string to float"
  | .numv _ => Except.ok 0

/-- The numeric value a cell ends up with when the conversion succeeds. -/
def convertedQ : CountCell → ℚ
  | .strv v => (parseFloatQ (removeCommas v)).getD 0
  | .numv _ => 0

/-- Whether a cell cannot make `astype(float)` raise. -/
def cellParses : CountCell → Bool
  | .strv v => (parseFloatQ (removeCommas v)).isSome
  | .numv _ => true

/-- The whole normalization of one count-like column (source lines 92-93). -/
def normalize_count_column : CountColumn → Except String CountColumn
  | .obj cells => do
      let qs ← cells.mapM convertCountCell
      pure (CountColumn.i64 (qs.map truncQ))
  | .i64 _ => Except.error "Can only use .str accessor with string values"

theorem convertCountCell_eq_ok {c : CountCell} (h : cellParses c = true) :
    convertCountCell c = Except.ok (convertedQ c) := by
  cases c with
  | strv v =>
    simp only [cellParses, Option.isSome_iff_exists] at h
    obtain ⟨q, hq⟩ := h
    simp [convertCountCell, convertedQ, hq]
  | numv v => rfl

theorem mapM_convertCountCell_ok :
    ∀ cells : List CountCell, (∀ c ∈ cells, cellParses c = true) →
      cells.mapM convertCountCell = Except.ok (cells.map convertedQ) := by
  intro cells
  induction cells with
  | nil => intro _; rfl
  | cons c t ih =>
    intro h
    have hc := convertCountCell_eq_ok (h c (List.mem_cons_self c t))
    have ht := ih (fun x hx => h x (List.mem_cons_of_mem c hx))
    rw [List.mapM_cons, hc, ht]
    rfl

/-- Claim C4 counterexample: a column containing the non-numeric text
`"abc"` makes `astype(float)` raise ValueError, aborting the run, instead of
coercing the entry to the missing sentinel 0. -/
theorem c4_non_numeric_text_aborts_cex :
    normalize_count_column (CountColumn.obj [CountCell.strv "abc"]) =
      Except.error "could not convert string to float" := rfl

/-- Claim C4 (amended): on an object-dtype count column whose string
entries are all numeric after comma-stripping, the normalization succeeds:
thousands separators are removed, string entries become their numeric
values (truncated to int), and non-string entries (e.g. previously-missing
values filled as 0) become the sentinel 0.  A string entry that is not
numeric instead raises ValueError and aborts the run (see the
counterexample). -/
theorem c4_count_normalization_ok (cells : List CountCell)
    (h : ∀ c ∈ cells, cellParses c = true) :
    normalize_count_column (CountColumn.obj cells) =
      Except.ok (CountColumn.i64 (cells.map (fun c => truncQ (convertedQ c)))) := by
  have hdef : normalize_count_column (CountColumn.obj cells) =
      Except.bind (cells.mapM convertCountCell)
        (fun qs => Except.ok (CountColumn.i64 (qs.map truncQ))) := rfl
  rw [hdef, mapM_convertCountCell_ok cells h]
  show Except.ok (CountColumn.i64 ((cells.map convertedQ).map truncQ)) =
    Except.ok (CountColumn.i64 (cells.map (fun c => truncQ (convertedQ c))))
  rw [List.map_map]
  rfl

/-- Witness for C4: the delimited text `"1,024"` becomes 1024 and a
non-string cell becomes 0. -/
theorem c4_count_normalization_ok_witness :
    normalize_count_column (CountColumn.obj [CountCell.strv "1,024", CountCell.numv 5]) =
      Except.ok (CountColumn.i64 [1024, 0]) := by
  have h := c4_count_normalization_ok [CountCell.strv "1,024", CountCell.numv 5] (by decide)
  rw [h]
  exact congrArg (fun l => Except.ok (CountColumn.i64 l)) (by decide)

/-- Claim C9: the count-column normalization is not re-applicable — any
column it successfully produces is int64, and running the step again on an
int64 column raises (the `.str` accessor requires string values). -/
theorem c9_count_normalization_not_reapplicable (col out : CountColumn)
    (h : normalize_count_column col = Except.ok out) :
    ∃ msg, normalize_count_column out = Except.error msg := by
  cases col with
  | i64 vals => exact Except.noConfusion h
  | obj cells =>
    have hdef : normalize_count_column (CountColumn.obj cells) =
        Except.bind (cells.mapM convertCountCell)
          (fun qs => Except.ok (CountColumn.i64 (qs.map truncQ))) := rfl
    rw [hdef] at h
    cases hm : cells.mapM convertCountCell with
    | error e =>
      rw [hm] at h
      exact Except.noConfusion h
    | ok qs =>
      rw [hm] at h
      have h2 : CountColumn.i64 (qs.map truncQ) = out := Except.ok.inj h
      rw [← h2]
      exact ⟨"Can only use .str accessor with string values", rfl⟩

/-- Witness for C9: running the step twice on a concrete one-entry column
fails the second time. -/
theorem c9_count_normalization_not_reapplicable_witness :
    ∃ msg, normalize_count_column (CountColumn.i64 [5]) = Except.error msg :=
  c9_count_normalization_not_reapplicable
    (CountColumn.obj [CountCell.strv "5"]) (CountColumn.i64 [5])
    (congrArg (fun l => Except.ok (CountColumn.i64 l)) (by decide))

/-! ### Standardizer: `StandardScaler` (source lines 202-204, 321)

`scaler.fit_transform(X_train)` computes per-column mean and standard
deviation on the training matrix; `scaler.transform` then reuses exactly
those parameters on any later matrix (`X_test` at line 204, the full `X` at
line 321) and never re-fits.  sklearn uses the biased (population) standard
deviation and replaces a zero standard deviation by 1
(`_handle_zeros_in_scale`).  Since the square root of a rational is
generally irrational, the fitted scale is characterized by its square. -/

/-- The state `StandardScaler.fit` computes on one column: `μ` is the
column mean and `s` the population standard deviation, except that a
zero standard deviation is replaced by 1. -/
def scalerFit (col : List ℚ) (μ s : ℚ) : Prop :=
  μ = meanQ col ∧ ((popVarQ col = 0 ∧ s = 1) ∨ (0 < s ∧ s ^ 2 = popVarQ col))

/-- `StandardScaler.transform` on one column: subtract the fitted mean,
divide by the fitted scale — the same `(μ, s)` whatever column is passed. -/
def scalerTransformCol (μ s : ℚ) (col : List ℚ) : List ℚ :=
  col.map (fun x => (x - μ) / s)

theorem sum_map_affine_div (l : List ℚ) (μ s : ℚ) :
    (l.map (fun x => (x - μ) / s)).sum = (l.sum - l.length * μ) / s := by
  induction l with
  | nil => simp
  | cons a t ih =>
    simp only [List.map_cons, List.sum_cons, ih, List.length_cons]
    push_cast
    ring

theorem sum_map_div_const (l : List ℚ) (g : ℚ → ℚ) (c : ℚ) :
    (l.map (fun x => g x / c)).sum = (l.map g).sum / c := by
  induction l with
  | nil => simp
  | cons a t ih =>
    simp only [List.map_cons, List.sum_cons, ih]
    ring

/-- Claim C7 counterexample: on a zero-variance (constant) column the
fitted scale is 1 (sklearn's zero guard), the transformed column is
constantly 0, and its standard deviation is 0, not ≈ 1. -/
theorem c7_zero_variance_cex :
    scalerFit [5, 5] 5 1 ∧ popVarQ (scalerTransformCol 5 1 [5, 5]) ≠ 1 := by
  refine ⟨⟨by norm_num [meanQ], Or.inl ⟨by norm_num [popVarQ, meanQ], rfl⟩⟩, ?_⟩
  norm_num [popVarQ, meanQ, scalerTransformCol]

/-- Claim C7 (amended): the transform always applies the one fitted
`(mean, scale)` pair, and transforming the very column used for fitting
yields mean exactly 0 and variance exactly 1 (hence standard deviation 1)
PROVIDED the column has nonzero variance; a zero-variance column instead
maps to the constant 0 column (standard deviation 0), by sklearn's
zero-scale guard. -/
theorem c7_standardizer_round_trip (col : List ℚ) (μ s : ℚ)
    (hfit : scalerFit col μ s) (hvar : popVarQ col ≠ 0) :
    meanQ (scalerTransformCol μ s col) = 0 ∧
      popVarQ (scalerTransformCol μ s col) = 1 := by
  obtain ⟨hμ, hcase⟩ := hfit
  rcases hcase with ⟨h0, _⟩ | ⟨hs0, hs2⟩
  · exact absurd h0 hvar
  have hs_ne : s ≠ 0 := ne_of_gt hs0
  have hcol_ne : col ≠ [] := by
    intro h
    exact hvar (by rw [h]; simp [popVarQ, meanQ])
  have hn : (col.length : ℚ) ≠ 0 := by
    have hl : col.length ≠ 0 := fun hl => hcol_ne (List.length_eq_zero.mp hl)
    exact_mod_cast hl
  have hmean : meanQ (scalerTransformCol μ s col) = 0 := by
    unfold scalerTransformCol meanQ
    rw [sum_map_affine_div, List.length_map, hμ]
    unfold meanQ
    field_simp
  refine ⟨hmean, ?_⟩
  unfold popVarQ
  rw [hmean]
  simp only [sub_zero]
  unfold scalerTransformCol
  rw [List.map_map]
  have hcomp : ((fun x : ℚ => x ^ 2) ∘ fun x : ℚ => (x - μ) / s) =
      fun x : ℚ => ((x - μ) ^ 2) / (s ^ 2) := by
    funext x
    simp [Function.comp, div_pow]
  rw [hcomp]
  unfold meanQ
  rw [sum_map_div_const col (fun x => (x - μ) ^ 2) (s ^ 2), List.length_map]
  have hsum : (col.map (fun x => (x - μ) ^ 2)).sum = popVarQ col * col.length := by
    rw [hμ]
    unfold popVarQ meanQ
    rw [List.length_map]
    field_simp
  rw [hsum, ← hs2]
  field_simp

/-- Witness for C7: fitting on the column `[1, 3]` gives mean 2 and
standard deviation 1, and the transformed column has mean 0 and variance
1. -/
theorem c7_standardizer_round_trip_witness :
    meanQ (scalerTransformCol 2 1 [1, 3]) = 0 ∧
      popVarQ (scalerTransformCol 2 1 [1, 3]) = 1 :=
  c7_standardizer_round_trip [1, 3] 2 1
    ⟨by norm_num [meanQ], Or.inr ⟨by norm_num, by norm_num [popVarQ, meanQ]⟩⟩
    (by norm_num [popVarQ, meanQ])

/-! ### Train/test split and the model-creation section (source lines 192-294)

`train_test_split(X, y, test_size=0.2, random_state=42)` shuffles the row
indices with an RNG seeded from `random_state` and takes the first
`ceil(0.2 * n)` shuffled indices as the test rows, the rest as training
rows.  The shuffled index list is a deterministic function of `(n, seed)`;
we pass it as the parameter `perm` (a permutation of `range n`), the same
one for every call with the same arguments and seed — which is exactly how
the script calls it at lines 199 and 267. -/

abbrev Mat := List (List ℚ)
abbrev Vec := List ℚ

/-- Result of one `train_test_split` call. -/
structure SplitData where
  X_train : Mat
  X_test : Mat
  y_train : Vec
  y_test : Vec
deriving DecidableEq

/-- Number of test rows for `test_size=0.2`: `ceil(0.2 * n)`. -/
def n_test (n : ℕ) : ℕ := (n + 4) / 5

/-- `train_test_split(X, y, test_size=0.2, random_state=42)`, with `perm`
the seed-determined shuffled index list. -/
def train_test_split (perm : List ℕ) (X : Mat) (y : Vec) : SplitData :=
  let nt := n_test X.length
  let testIdx := perm.take nt
  let trainIdx := perm.drop nt
  { X_train := trainIdx.map (fun i => X.getD i [])
    X_test := testIdx.map (fun i => X.getD i [])
    y_train := trainIdx.map (fun i => y.getD i 0)
    y_test := testIdx.map (fun i => y.getD i 0) }

/-- Per-row scaler transform for a fitted per-column `(mean, scale)` list. -/
def scalerTransformRow (ms : List (ℚ × ℚ)) (row : List ℚ) : List ℚ :=
  List.zipWith (fun p x => (x - p.1) / p.2) ms row

/-- `scaler.transform` on a whole matrix. -/
def scalerTransformMat (ms : List (ℚ × ℚ)) (M : Mat) : Mat :=
  M.map (scalerTransformRow ms)

/-- The three model variants of the script. -/
inductive ModelId where
  | linreg
  | neural
  | xgboost
deriving DecidableEq

/-- The data objects built by the model-creation section, in script order:
the split at line 199, the scaled matrices at lines 203-204, the second
(identical) split at line 267, and the raw DMatrix features at lines
270-271. -/
structure ModelSectionData where
  split1 : SplitData
  X_train_scaled : Mat
  X_test_scaled : Mat
  split2 : SplitData
  dtrain : Mat
  dtest : Mat
deriving DecidableEq

/-- The model-creation section (source lines 199-271), with the scaler's
fitted per-column parameters `ms` and the seed-42 shuffled indices `perm`
as inputs. -/
def modelSection (ms : List (ℚ × ℚ)) (perm : List ℕ) (X : Mat) (y : Vec) :
    ModelSectionData :=
  let sd := train_test_split perm X y
  let xtr := scalerTransformMat ms sd.X_train
  let xte := scalerTransformMat ms sd.X_test
  let sd2 := train_test_split perm X y
  { split1 := sd
    X_train_scaled := xtr
    X_test_scaled := xte
    split2 := sd2
    dtrain := sd2.X_train
    dtest := sd2.X_test }

/-- Which feature matrix each model is fit on: the scaled training matrix
for the linear model (line 208) and the neural net (lines 253, 257), the
raw training matrix for XGBoost (lines 270, 287). -/
def modelFitMatrix (ms : List (ℚ × ℚ)) (perm : List ℕ) (X : Mat) (y : Vec) :
    ModelId → Mat
  | .linreg => (modelSection ms perm X y).X_train_scaled
  | .neural => (modelSection ms perm X y).X_train_scaled
  | .xgboost => (modelSection ms perm X y).dtrain

/-- Which feature matrix each model is evaluated on: the scaled test matrix
for the linear model (line 211) and the neural net (line 259), the raw test
matrix for XGBoost (line 290). -/
def modelEvalMatrix (ms : List (ℚ × ℚ)) (perm : List ℕ) (X : Mat) (y : Vec) :
    ModelId → Mat
  | .linreg => (modelSection ms perm X y).X_test_scaled
  | .neural => (modelSection ms perm X y).X_test_scaled
  | .xgboost => (modelSection ms perm X y).dtest

/-- Claim C2 counterexample: the XGBoost model is fit on the raw training
matrix, which differs from its standardized version on a concrete input
(one feature, rows `[1]` and `[3]`, fitted mean 3 and scale 1 on the
1-row training split). -/
theorem c2_xgboost_raw_features_cex :
    modelFitMatrix [(3, 1)] [0, 1] [[1], [3]] [0, 0] ModelId.xgboost =
        (train_test_split [0, 1] [[1], [3]] [0, 0]).X_train ∧
      (train_test_split [0, 1] [[1], [3]] [0, 0]).X_train ≠
        scalerTransformMat [(3, 1)]
          ((train_test_split [0, 1] [[1], [3]] [0, 0]).X_train) := by
  refine ⟨rfl, ?_⟩
  norm_num [train_test_split, n_test, scalerTransformMat, scalerTransformRow,
    List.getD]

/-- Claim C2 (amended): the linear and neural-network models are fit and
evaluated on the Standardizer-transformed matrices (fitted parameters `ms`
applied to both splits), but the XGBoost model is fit and evaluated on the
raw, unstandardized train/test matrices. -/
theorem c2_model_feature_matrices (ms : List (ℚ × ℚ)) (perm : List ℕ)
    (X : Mat) (y : Vec) :
    modelFitMatrix ms perm X y ModelId.linreg =
        scalerTransformMat ms (train_test_split perm X y).X_train ∧
      modelFitMatrix ms perm X y ModelId.neural =
        scalerTransformMat ms (train_test_split perm X y).X_train ∧
      modelEvalMatrix ms perm X y ModelId.linreg =
        scalerTransformMat ms (train_test_split perm X y).X_test ∧
      modelEvalMatrix ms perm X y ModelId.neural =
        scalerTransformMat ms (train_test_split perm X y).X_test ∧
      modelFitMatrix ms perm X y ModelId.xgboost =
        (train_test_split perm X y).X_train ∧
      modelEvalMatrix ms perm X y ModelId.xgboost =
        (train_test_split perm X y).X_test :=
  ⟨rfl, rfl, rfl, rfl, rfl, rfl⟩

/-! ### MetricsReporter (source lines 215-221, 260-261, 293) -/

/-- The four metric kinds of the output contract. -/
inductive MetricKind where
  | mse
  | rmse
  | mae
  | r2
deriving DecidableEq

/-- `mean_squared_error`: mean of squared residuals. -/
def mseMetric (yt yp : Vec) : ℚ :=
  meanQ (List.zipWith (fun a b => (a - b) ^ 2) yt yp)

/-- `mean_absolute_error`: mean of absolute residuals. -/
def maeMetric (yt yp : Vec) : ℚ :=
  meanQ (List.zipWith (fun a b => |a - b|) yt yp)

/-- `r2_score`: 1 − RSS/TSS about the target mean, with sklearn's
degenerate-case values when TSS = 0. -/
def r2Metric (yt yp : Vec) : ℚ :=
  let rss := (List.zipWith (fun a b => (a - b) ^ 2) yt yp).sum
  let tss := (yt.map (fun a => (a - meanQ yt) ^ 2)).sum
  if tss = 0 then (if rss = 0 then 1 else 0) else 1 - rss / tss

/-- The metrics record the script actually computes for each model, as
(kind, value) pairs, each value computed from that model's predictions on
the held-out test split.  `sqrtQ` abstracts the real square root used by
`mean_squared_error(..., squared=False)` (irrational on ℚ); `predict m`
abstracts the fitted model's prediction map. -/
def reportedMetrics (sqrtQ : ℚ → ℚ) (predict : ModelId → Mat → Vec)
    (ms : List (ℚ × ℚ)) (perm : List ℕ) (X : Mat) (y : Vec) :
    ModelId → List (MetricKind × ℚ) :=
  fun m =>
    let sd := train_test_split perm X y
    let yp := predict m (modelEvalMatrix ms perm X y m)
    match m with
    | .linreg =>
        [(MetricKind.mse, mseMetric sd.y_test yp),
         (MetricKind.rmse, sqrtQ (mseMetric sd.y_test yp)),
         (MetricKind.mae, maeMetric sd.y_test yp),
         (MetricKind.r2, r2Metric sd.y_test yp)]
    | .neural =>
        [(MetricKind.mse, mseMetric sd.y_test yp),
         (MetricKind.r2, r2Metric sd.y_test yp)]
    | .xgboost =>
        [(MetricKind.r2, r2Metric sd.y_test yp)]

/-- Claim C3 counterexample: the XGBoost model's metrics record does not
contain MAE (it contains only R²), already on trivial concrete inputs. -/
theorem c3_incomplete_metrics_cex :
    MetricKind.mae ∉
      (reportedMetrics id (fun _ _ => []) [] [] [] [] ModelId.xgboost).map
        Prod.fst := by
  decide

/-- Claim C3 (amended): only the linear model gets the complete
{MSE, RMSE, MAE, R²} record; the neural net gets {MSE, R²} and XGBoost gets
only {R²}.  Every metric that is computed is computed from that model's
predictions on the single held-out test split (in particular each model's
R² entry pairs the shared `y_test` with that model's predictions). -/
theorem c3_reported_metrics (sqrtQ : ℚ → ℚ) (predict : ModelId → Mat → Vec)
    (ms : List (ℚ × ℚ)) (perm : List ℕ) (X : Mat) (y : Vec) :
    (reportedMetrics sqrtQ predict ms perm X y ModelId.linreg).map Prod.fst =
        [MetricKind.mse, MetricKind.rmse, MetricKind.mae, MetricKind.r2] ∧
      (reportedMetrics sqrtQ predict ms perm X y ModelId.neural).map Prod.fst =
        [MetricKind.mse, MetricKind.r2] ∧
      (reportedMetrics sqrtQ predict ms perm X y ModelId.xgboost).map Prod.fst =
        [MetricKind.r2] ∧
      ∀ m, (MetricKind.r2,
          r2Metric (train_test_split perm X y).y_test
            (predict m (modelEvalMatrix ms perm X y m))) ∈
        reportedMetrics sqrtQ predict ms perm X y m := by
  refine ⟨rfl, rfl, rfl, ?_⟩
  intro m
  cases m <;> simp [reportedMetrics]

/-- Claim C10: the two split calls (lines 199 and 267) take the same
`X`, `y`, test fraction and seed, hence the same shuffled index list, and
produce identical partitions; the test/train indices together form a
permutation of all row indices (each row on exactly one side), and the
XGBoost test features come from the same partition as the other models'. -/
theorem c10_two_splits_identical (ms : List (ℚ × ℚ)) (perm : List ℕ)
    (X : Mat) (y : Vec) (hperm : perm.Perm (List.range X.length)) :
    (modelSection ms perm X y).split2 = (modelSection ms perm X y).split1 ∧
      (modelSection ms perm X y).dtest =
        (modelSection ms perm X y).split1.X_test ∧
      (modelSection ms perm X y).split1.X_test.length +
          (modelSection ms perm X y).split1.X_train.length = X.length ∧
      (perm.take (n_test X.length) ++ perm.drop (n_test X.length)).Perm
        (List.range X.length) := by
  refine ⟨rfl, rfl, ?_, ?_⟩
  · have hlen : perm.length = X.length := by
      simpa using hperm.length_eq
    simp only [modelSection, train_test_split, List.length_map,
      List.length_take, List.length_drop, hlen]
    omega
  · rw [List.take_append_drop]
    exact hperm

/-- Witness for C10 at a concrete two-row dataset with the seed-42 shuffle
`[1, 0]`. -/
theorem c10_two_splits_identical_witness :
    (modelSection [] [1, 0] [[1], [2]] [3, 4]).split2 =
        (modelSection [] [1, 0] [[1], [2]] [3, 4]).split1 ∧
      (modelSection [] [1, 0] [[1], [2]] [3, 4]).dtest =
        (modelSection [] [1, 0] [[1], [2]] [3, 4]).split1.X_test ∧
      (modelSection [] [1, 0] [[1], [2]] [3, 4]).split1.X_test.length +
          (modelSection [] [1, 0] [[1], [2]] [3, 4]).split1.X_train.length =
        ([[1], [2]] : Mat).length ∧
      (([1, 0] : List ℕ).take (n_test ([[1], [2]] : Mat).length) ++
          ([1, 0] : List ℕ).drop (n_test ([[1], [2]] : Mat).length)).Perm
        (List.range ([[1], [2]] : Mat).length) :=
  c10_two_splits_identical [] [1, 0] [[1], [2]] [3, 4] (by decide)

/-! ### CrossValidator (source lines 321-326)

`cross_val_score(model, X_scaled, y, cv=5)` uses `KFold(n_splits=5)`
without shuffling: contiguous folds, the first `n % k` of size
`n / k + 1` and the rest of size `n / k` — fully deterministic.  The script
negates the returned `neg_root_mean_squared_error` scores and takes their
mean.  `xgb.cv(..., num_boost_round=100, nfold=5, seed=42).mean()[2]`
instead averages column index 2 (`test-rmse-mean`, the fold-averaged RMSE
at each boosting round) over all 100 boosting-round rows. -/

/-- Sizes of the k folds over n rows (sklearn `KFold`). -/
def foldSizes (n k : ℕ) : List ℕ :=
  (List.range k).map (fun i => n / k + if i < n % k then 1 else 0)

/-- Contiguous index blocks of the given sizes, starting at `start`. -/
def foldBlocks (start : ℕ) : List ℕ → List (List ℕ)
  | [] => []
  | sz :: rest => List.range' start sz :: foldBlocks (start + sz) rest

/-- The held-out index set of each of the k folds (sklearn `KFold` without
shuffle). -/
def kfold_test_indices (n k : ℕ) : List (List ℕ) :=
  foldBlocks 0 (foldSizes n k)

/-- `cross_val_score` with `scoring='neg_root_mean_squared_error'` returns
the NEGATED per-fold RMSE values (`foldRmse` abstracts the per-fold RMSE of
the abstract fitted models). -/
def cross_val_score_neg_rmse (foldRmse : List ℚ) : List ℚ :=
  foldRmse.map (fun v => -v)

/-- The script's comparison value for the linear and neural models
(lines 324-325): `(-cross_val_score(...)).mean()`. -/
def cv_comparison_value (foldRmse : List ℚ) : ℚ :=
  meanQ ((cross_val_score_neg_rmse foldRmse).map (fun v => -v))

/-- Row `r` of the `test-rmse-mean` column of `xgb.cv`'s result (column
index 2): the mean over the 5 folds of the fold RMSE at boosting round `r`
(`tbl r f` abstracts fold `f`'s test RMSE after round `r`). -/
def xgb_cv_test_rmse_mean (tbl : ℕ → ℕ → ℚ) (r : ℕ) : ℚ :=
  meanQ ((List.range 5).map (tbl r))

/-- The script's comparison value for XGBoost (line 326):
`xgb.cv(params, dall, num_boost_round=100, nfold=5, ...).mean()[2]` — the
mean over the 100 boosting-round rows of the `test-rmse-mean` column. -/
def xgb_cv_comparison_value (tbl : ℕ → ℕ → ℚ) : ℚ :=
  meanQ ((List.range 100).map (xgb_cv_test_rmse_mean tbl))

/-- A concrete per-round per-fold RMSE table: every fold scores 0 at round
0 and 2 at every later round. -/
def xgbCvCexTable : ℕ → ℕ → ℚ := fun r _ => if r = 0 then 0 else 2

theorem foldBlocks_flatten (L : List ℕ) :
    ∀ start : ℕ, (foldBlocks start L).flatten = List.range' start L.sum := by
  induction L with
  | nil => intro start; simp [foldBlocks]
  | cons sz rest ih =>
    intro start
    simp only [foldBlocks, List.flatten_cons, ih (start + sz), List.sum_cons]
    rw [Nat.add_comm sz rest.sum]
    exact List.range'_append_1 start sz rest.sum

theorem sum_range_map_div_add_ite (n k : ℕ) :
    ∀ m : ℕ, ((List.range m).map (fun i => n / k + if i < n % k then 1 else 0)).sum
      = m * (n / k) + min (n % k) m := by
  intro m
  induction m with
  | zero => simp
  | succ m ih =>
    rw [List.range_succ, List.map_append, List.sum_append, ih]
    have hmul : (m + 1) * (n / k) = m * (n / k) + n / k := by ring
    by_cases h : m < n % k
    · rw [min_eq_right h.le, min_eq_right (Nat.succ_le_of_lt h)]
      simp only [List.map_cons, List.map_nil, if_pos h, List.sum_cons, List.sum_nil]
      omega
    · have hle : n % k ≤ m := Nat.le_of_not_lt h
      rw [min_eq_left hle, min_eq_left (hle.trans (Nat.le_succ m))]
      simp only [List.map_cons, List.map_nil, if_neg h, List.sum_cons, List.sum_nil]
      omega

theorem sum_foldSizes (n k : ℕ) (hk : 0 < k) : (foldSizes n k).sum = n := by
  unfold foldSizes
  rw [sum_range_map_div_add_ite]
  have hmod : n % k < k := Nat.mod_lt n hk
  have hdm := Nat.div_add_mod n k
  omega

/-- Claim C5 counterexample: for the XGBoost model the comparison value is
the mean over the 100 boosting rounds of the fold-averaged RMSE, which on a
concrete score table (0 at round 0, 2 afterwards) equals 99/50 while the
mean of the per-fold (final-round) scores is 2. -/
theorem c5_xgb_cv_not_fold_mean_cex :
    xgb_cv_comparison_value xgbCvCexTable ≠
      meanQ ((List.range 5).map (xgbCvCexTable 99)) := by
  have h5 : List.range 5 = [0, 1, 2, 3, 4] := rfl
  have hinner : ∀ r, xgb_cv_test_rmse_mean xgbCvCexTable r
      = if r = 0 then 0 else 2 := by
    intro r
    by_cases hr : r = 0
    · subst hr
      norm_num [xgb_cv_test_rmse_mean, xgbCvCexTable, h5, meanQ]
    · simp only [xgb_cv_test_rmse_mean, xgbCvCexTable, h5, if_neg hr,
        List.map_cons, List.map_nil]
      norm_num [meanQ]
  have houter : (List.range 100).map (xgb_cv_test_rmse_mean xgbCvCexTable)
      = (List.range 100).map (fun r => if r = 0 then (0 : ℚ) else 2) :=
    List.map_congr_left (fun r _ => hinner r)
  have hsum : ∀ m : ℕ,
      ((List.range (m + 1)).map (fun r => if r = 0 then (0 : ℚ) else 2)).sum
        = 2 * m := by
    intro m
    induction m with
    | zero =>
      have h1 : List.range 1 = [0] := rfl
      simp [h1]
    | succ m ih =>
      rw [List.range_succ, List.map_append, List.sum_append, ih]
      simp only [List.map_cons, List.map_nil, List.sum_cons, List.sum_nil,
        if_neg (Nat.succ_ne_zero m)]
      push_cast
      ring
  have h198 : ((List.range 100).map (fun r => if r = 0 then (0 : ℚ) else 2)).sum
      = 198 := by
    have := hsum 99
    norm_num at this
    exact this
  unfold xgb_cv_comparison_value meanQ
  rw [houter, h198]
  simp only [List.length_map, List.length_range]
  norm_num [h5, xgbCvCexTable]

/-- Claim C5 (amended): the `KFold(n_splits=k)` held-out folds are the
contiguous blocks whose concatenation is exactly `range n` (every row held
out exactly once, deterministically); for the linear and neural models the
comparison value is indeed the mean of the per-fold RMSE scores; for the
XGBoost model it is instead the mean over the 100 boosting rounds of the
fold-averaged RMSE (not the mean of per-fold final scores — see the
counterexample). -/
theorem c5_cross_validation (n k : ℕ) (hk : 0 < k) (foldRmse : List ℚ)
    (tbl : ℕ → ℕ → ℚ) :
    (kfold_test_indices n k).flatten = List.range n ∧
      cv_comparison_value foldRmse = meanQ foldRmse ∧
      xgb_cv_comparison_value tbl =
        meanQ ((List.range 100).map (fun r => meanQ ((List.range 5).map (tbl r)))) := by
  refine ⟨?_, ?_, rfl⟩
  · unfold kfold_test_indices
    rw [foldBlocks_flatten, sum_foldSizes n k hk, List.range_eq_range']
  · unfold cv_comparison_value cross_val_score_neg_rmse
    rw [List.map_map]
    simp [Function.comp, neg_neg]

/-- Witness for C5: 5 folds over 7 rows partition `range 7`, and the
comparison value of fold scores `[1, 2, 3, 4, 5]` is their mean. -/
theorem c5_cross_validation_witness :
    (kfold_test_indices 7 5).flatten = List.range 7 ∧
      cv_comparison_value [1, 2, 3, 4, 5] = meanQ [1, 2, 3, 4, 5] ∧
      xgb_cv_comparison_value (fun _ _ => 1) =
        meanQ ((List.range 100).map
          (fun _ => meanQ ((List.range 5).map (fun _ => (1 : ℚ))))) :=
  c5_cross_validation 7 5 (by decide) [1, 2, 3, 4, 5] (fun _ _ => 1)

/-! ### OutlierFilter: `IsolationForest(contamination=0.05, random_state=42)`
(source lines 118-128)

`fit_predict` computes an anomaly score per row (a deterministic function
of the data for the fixed seed; abstracted here as the list `scores`), sets
the decision threshold `offset_` to the 5th percentile of the scores
(numpy linear-interpolation percentile), labels a row -1 exactly when its
score is strictly below the threshold, and the script then keeps only the
rows labeled 1 (`data = data[data['anomaly'] == 1]`, line 128). -/

/-- Scores sorted ascending (numpy percentile sorts its input). -/
def sortedScores (scores : List ℚ) : List ℚ :=
  List.insertionSort (· ≤ ·) scores

/-- The fractional position of the 5th percentile among n sorted values:
`0.05 * (n - 1)`. -/
def pctPos (n : ℕ) : ℚ := ((n : ℚ) - 1) / 20

/-- Integer part of the percentile position. -/
def pctIdx (n : ℕ) : ℕ := (⌊pctPos n⌋).toNat

/-- Fractional part of the percentile position. -/
def pctFrac (n : ℕ) : ℚ := pctPos n - (pctIdx n : ℚ)

/-- The 5th percentile of the scores with numpy's linear interpolation:
`sorted[i] + frac * (sorted[i+1] - sorted[i])` at position
`i + frac = 0.05 * (n-1)`. -/
def percentile05 (scores : List ℚ) : ℚ :=
  if pctIdx (sortedScores scores).length + 1 < (sortedScores scores).length then
    (sortedScores scores).getD (pctIdx (sortedScores scores).length) 0
      + pctFrac (sortedScores scores).length *
        ((sortedScores scores).getD (pctIdx (sortedScores scores).length + 1) 0
          - (sortedScores scores).getD (pctIdx (sortedScores scores).length) 0)
  else (sortedScores scores).getD ((sortedScores scores).length - 1) 0

/-- Number of rows labeled -1 (anomalous): score strictly below the
threshold. -/
def anomalies_count (scores : List ℚ) : ℕ :=
  scores.countP (fun v => decide (v < percentile05 scores))

/-- `data = data[data['anomaly'] == 1]`: keep exactly the rows whose score
is not below the threshold, in order. -/
def iso_forest_filter (rows : Mat) (scores : List ℚ) : Mat :=
  ((rows.zip scores).filter
    (fun p => !decide (p.2 < percentile05 scores))).map Prod.fst

theorem getD_eq_get_of_lt (l : List ℚ) (i : ℕ) (h : i < l.length) :
    l.getD i 0 = l.get ⟨i, h⟩ := by
  rw [List.getD_eq_getElem?_getD, List.getElem?_eq_getElem h]
  exact (List.get_eq_getElem l ⟨i, h⟩).symm

theorem sorted_getD_mono (l : List ℚ) (hs : l.Sorted (· ≤ ·)) (a b : ℕ)
    (hab : a ≤ b) (hb : b < l.length) : l.getD a 0 ≤ l.getD b 0 := by
  have ha : a < l.length := Nat.lt_of_le_of_lt hab hb
  rw [getD_eq_get_of_lt l a ha, getD_eq_get_of_lt l b hb]
  rcases eq_or_lt_of_le hab with rfl | hlt
  · exact le_refl _
  · exact hs.rel_get_of_lt (a := ⟨a, ha⟩) (b := ⟨b, hb⟩) hlt

theorem countP_lt_le_of_sorted (c : ℚ) :
    ∀ l : List ℚ, l.Sorted (· ≤ ·) → ∀ j : ℕ, j < l.length → c ≤ l.getD j 0 →
      l.countP (fun v => decide (v < c)) ≤ j := by
  intro l
  induction l with
  | nil =>
    intro _ j hj _
    exact absurd hj (Nat.not_lt_zero j)
  | cons a t ih =>
    intro hs j hj hc
    have has : ∀ b ∈ t, a ≤ b := (List.sorted_cons.mp hs).1
    have hts : t.Sorted (· ≤ ·) := (List.sorted_cons.mp hs).2
    cases j with
    | zero =>
      have hc0 : c ≤ a := by simpa using hc
      have hall : ∀ x ∈ a :: t, ¬((fun v => decide (v < c)) x = true) := by
        intro x hx
        simp only [decide_eq_true_eq]
        rcases List.mem_cons.mp hx with rfl | hxt
        · exact not_lt.mpr hc0
        · exact not_lt.mpr (hc0.trans (has x hxt))
      have := List.countP_eq_zero.mpr hall
      omega
    | succ j =>
      have hc' : c ≤ t.getD j 0 := by simpa using hc
      have hj' : j < t.length := by simpa using hj
      have ht := ih hts j hj' hc'
      rw [List.countP_cons]
      by_cases hpa : a < c
      · simp only [hpa, decide_True, eq_self_iff_true, if_true]
        omega
      · simp only [hpa, decide_False, Bool.false_eq_true, if_false]
        omega

theorem filter_zip_length_aux (c : ℚ) :
    ∀ (rows : Mat) (scores : List ℚ), scores.length = rows.length →
      (((rows.zip scores).filter (fun p => !decide (p.2 < c))).map Prod.fst).length
          + scores.countP (fun v => decide (v < c)) = rows.length := by
  intro rows
  induction rows with
  | nil =>
    intro scores h
    have : scores = [] := List.length_eq_zero.mp (by simpa using h)
    subst this
    simp
  | cons r rt ih =>
    intro scores h
    cases scores with
    | nil => simp at h
    | cons s st =>
      have h' : st.length = rt.length := by simpa using h
      have hrec := ih st h'
      simp only [List.zip_cons_cons, List.filter_cons, List.countP_cons]
      by_cases hs : s < c
      · simp only [hs, decide_True, Bool.not_true, Bool.false_eq_true, if_false,
          eq_self_iff_true, if_true, List.length_cons]
        omega
      · simp only [hs, decide_False, Bool.not_false, eq_self_iff_true, if_true,
          Bool.false_eq_true, if_false, List.map_cons, List.length_cons]
        omega

/-- Claim C6: for a fixed seed (hence a fixed, deterministic score list
with one score per row), the outlier filter only removes rows — its output
is a sublist of the input — and the number of removed rows (those strictly
below the 5th-percentile threshold) is at most the contamination fraction
5% of the row count plus one row. -/
theorem c6_outlier_filter (rows : Mat) (scores : List ℚ)
    (hlen : scores.length = rows.length) (hpos : 0 < rows.length) :
    (iso_forest_filter rows scores).Sublist rows ∧
      (iso_forest_filter rows scores).length + anomalies_count scores = rows.length ∧
      (anomalies_count scores : ℚ) ≤ (rows.length : ℚ) * (5 / 100) + 1 := by
  have hsub : (iso_forest_filter rows scores).Sublist rows := by
    have h1 := (List.filter_sublist (l := rows.zip scores)
      (p := fun p => !decide (p.2 < percentile05 scores))).map Prod.fst
    rwa [List.map_fst_zip rows scores (le_of_eq hlen.symm)] at h1
  refine ⟨hsub, filter_zip_length_aux (percentile05 scores) rows scores hlen, ?_⟩
  -- the counting bound
  have hperm : (sortedScores scores).Perm scores :=
    List.perm_insertionSort (· ≤ ·) scores
  have hsorted : (sortedScores scores).Sorted (· ≤ ·) :=
    List.sorted_insertionSort (· ≤ ·) scores
  have hslen : (sortedScores scores).length = rows.length := by
    rw [hperm.length_eq, hlen]
  have hcount : anomalies_count scores =
      (sortedScores scores).countP (fun v => decide (v < percentile05 scores)) :=
    (hperm.countP_eq _).symm
  have hn1 : (1 : ℚ) ≤ ((sortedScores scores).length : ℚ) := by
    rw [hslen]
    exact_mod_cast hpos
  have hpos0 : 0 ≤ pctPos (sortedScores scores).length := by
    unfold pctPos
    have : (0 : ℚ) ≤ ((sortedScores scores).length : ℚ) - 1 := by linarith
    positivity
  have hfloor0 : 0 ≤ ⌊pctPos (sortedScores scores).length⌋ :=
    Int.floor_nonneg.mpr hpos0
  have hidx_cast : ((pctIdx (sortedScores scores).length : ℕ) : ℚ)
      = ((⌊pctPos (sortedScores scores).length⌋ : ℤ) : ℚ) := by
    unfold pctIdx
    exact_mod_cast congrArg (fun z : ℤ => (z : ℚ)) (Int.toNat_of_nonneg hfloor0)
  have hidx_le : ((pctIdx (sortedScores scores).length : ℕ) : ℚ)
      ≤ pctPos (sortedScores scores).length := by
    rw [hidx_cast]
    exact Int.floor_le _
  have hfrac0 : 0 ≤ pctFrac (sortedScores scores).length := by
    unfold pctFrac
    linarith
  have hfrac1 : pctFrac (sortedScores scores).length ≤ 1 := by
    unfold pctFrac
    rw [hidx_cast]
    have := Int.fract_lt_one (pctPos (sortedScores scores).length)
    unfold Int.fract at this
    linarith
  by_cases hcase :
      pctIdx (sortedScores scores).length + 1 < (sortedScores scores).length
  · -- interpolation case: threshold at most the next sorted value
    have hmono : (sortedScores scores).getD (pctIdx (sortedScores scores).length) 0
        ≤ (sortedScores scores).getD (pctIdx (sortedScores scores).length + 1) 0 :=
      sorted_getD_mono _ hsorted _ _ (Nat.le_succ _) hcase
    have hthr_le : percentile05 scores
        ≤ (sortedScores scores).getD (pctIdx (sortedScores scores).length + 1) 0 := by
      rw [percentile05, if_pos hcase]
      nlinarith [hfrac0, hfrac1, hmono]
    have hcnt : (sortedScores scores).countP
        (fun v => decide (v < percentile05 scores))
          ≤ pctIdx (sortedScores scores).length + 1 :=
      countP_lt_le_of_sorted _ _ hsorted _ hcase hthr_le
    have hcnt' : (anomalies_count scores : ℚ)
        ≤ ((pctIdx (sortedScores scores).length : ℕ) : ℚ) + 1 := by
      rw [hcount]
      exact_mod_cast hcnt
    have hbound : ((pctIdx (sortedScores scores).length : ℕ) : ℚ) + 1
        ≤ (rows.length : ℚ) * (5 / 100) + 1 := by
      have hpp : pctPos (sortedScores scores).length
          = (((sortedScores scores).length : ℚ) - 1) / 20 := rfl
      rw [← hslen]
      have := hidx_le
      rw [hpp] at this
      linarith
    linarith
  · -- degenerate case: at most one row
    have hone : (sortedScores scores).length = 1 := by
      have hle : (sortedScores scores).length ≤
          pctIdx (sortedScores scores).length + 1 := Nat.le_of_not_lt hcase
      have hcast : ((sortedScores scores).length : ℚ) - 1
          ≤ ((pctIdx (sortedScores scores).length : ℕ) : ℚ) := by
        have : ((sortedScores scores).length : ℚ)
            ≤ ((pctIdx (sortedScores scores).length : ℕ) : ℚ) + 1 := by
          exact_mod_cast hle
        linarith
      have hpp : pctPos (sortedScores scores).length
          = (((sortedScores scores).length : ℚ) - 1) / 20 := rfl
      have hsmall : ((sortedScores scores).length : ℚ) ≤ 1 := by
        have h2 := hidx_le
        rw [hpp] at h2
        linarith
      have : ((sortedScores scores).length : ℚ) = 1 := le_antisymm hsmall hn1
      exact_mod_cast this
    have hthr_le : percentile05 scores
        ≤ (sortedScores scores).getD ((sortedScores scores).length - 1) 0 := by
      rw [percentile05, if_neg hcase]
    have hcnt : (sortedScores scores).countP
        (fun v => decide (v < percentile05 scores))
          ≤ (sortedScores scores).length - 1 :=
      countP_lt_le_of_sorted _ _ hsorted _ (by omega) hthr_le
    have hcnt0 : anomalies_count scores = 0 := by
      rw [hcount] at *
      omega
    rw [hcnt0]
    have : (0 : ℚ) ≤ (rows.length : ℚ) * (5 / 100) := by positivity
    push_cast
    linarith

/-- Witness for C6: two rows with scores 3 and 4; the threshold is 61/20,
one row is removed, and the bound 2 * 5% + 1 holds. -/
theorem c6_outlier_filter_witness :
    (iso_forest_filter [[1], [2]] [3, 4]).Sublist [[1], [2]] ∧
      (iso_forest_filter [[1], [2]] [3, 4]).length + anomalies_count [3, 4]
        = ([[1], [2]] : Mat).length ∧
      (anomalies_count [3, 4] : ℚ) ≤ (([[1], [2]] : Mat).length : ℚ) * (5 / 100) + 1 :=
  c6_outlier_filter [[1], [2]] [3, 4] (by decide) (by decide)

end SpotifyStreams
